import Mathlib

set_option maxHeartbeats 1000000

/- Verification of the instance-construction pipeline of
`orca/dataset_readers/sharc_net.py` (class `ShARCNetDatasetReader`).

Python strings are modelled as `List Char` (`Str`), Python lists as Lean
lists, `None`-able values as `Option`.  Each definition below is a direct
transliteration of the Python function it is named after; comments record
the Python lines being modelled. -/

abbrev Str := List Char

/-- Convenience: the character list of a string literal. -/
def str (s : String) : Str := s.data

/-- A token: an opaque word-like unit carrying a textual surface form
(`allennlp.data.tokenizers.Token`; only its `text` attribute is consulted
by the code under verification). -/
structure Token where
  text : Str
deriving DecidableEq

/-- Python `str.lower()` (per-character case mapping). -/
def pyLower (s : Str) : Str := s.map Char.toLower

/-- Lookup in a Python dict, modelled as an insertion-ordered association
list (CPython dicts preserve insertion order). -/
def dictGet? (k : Str) : List (Str × Nat) → Option Nat
  | [] => none
  | (k2, v) :: d => if k2 = k then some v else dictGet? k d

/-- Python `dict.setdefault(k, v)`: return the stored value when `k` is
present; otherwise append `k ↦ v` (insertion order) and return `v`. -/
def setdefault (d : List (Str × Nat)) (k : Str) (v : Nat) : List (Str × Nat) × Nat :=
  match dictGet? k d with
  | some v0 => (d, v0)
  | none => (d ++ [(k, v)], v)

/-- Loop of `_tokens_to_ids`:
`for token in tokens: out.append(ids.setdefault(token.text.lower(), len(ids)))`. -/
def tokens_to_ids_aux : List Token → List (Str × Nat) → List Nat
  | [], _ => []
  | t :: ts, ids =>
    let r := setdefault ids (pyLower t.text) ids.length
    r.2 :: tokens_to_ids_aux ts r.1

/-- `ShARCNetDatasetReader._tokens_to_ids` (sharc_net.py lines 156-162):
`ids` starts as the empty dict, ids are emitted one per token. -/
def tokens_to_ids (tokens : List Token) : List Nat := tokens_to_ids_aux tokens []

/- Specification-side description of the aligner, used to state claim C1:
the distinct lowercase surface forms in first-occurrence order, and the
index of a form in that list. -/

/-- Distinct lowercase forms of the tokens, in first-occurrence order,
appended after the accumulator. -/
def firstSeenAux : List Token → List Str → List Str
  | [], acc => acc
  | t :: ts, acc =>
    if pyLower t.text ∈ acc then firstSeenAux ts acc
    else firstSeenAux ts (acc ++ [pyLower t.text])

/-- Distinct lowercase surface forms in first-occurrence order. -/
def firstSeen (tokens : List Token) : List Str := firstSeenAux tokens []

/-- Index of the first occurrence of `k` in a list (its length if absent). -/
def seenIdx (k : Str) : List Str → Nat
  | [] => 0
  | k2 :: ks => if k2 = k then 0 else seenIdx k ks + 1

/-- The keys of a modelled dict, in insertion order. -/
def keysOf (d : List (Str × Nat)) : List Str := d.map Prod.fst

/-- Invariant of the dict built by `_tokens_to_ids`: every key is stored
with its insertion position as value. -/
def goodDict (d : List (Str × Nat)) : Prop :=
  ∀ k, dictGet? k d = if k ∈ keysOf d then some (seenIdx k (keysOf d)) else none


/- Python string operations used by `find_from_last`, `split_last_sentence`
and `modify_rule`, transliterated over `Str`. -/

/-- Python `s.split(sep)` for a one-character separator: split at every
occurrence; `n` separators yield `n + 1` (possibly empty) parts. -/
def pySplitAux (sep : Char) : Str → Str → List Str
  | [], cur => [cur.reverse]
  | c :: cs, cur =>
    if c = sep then cur.reverse :: pySplitAux sep cs []
    else pySplitAux sep cs (c :: cur)

/-- Python `s.split(sep)`. -/
def pySplit (sep : Char) (s : Str) : List Str := pySplitAux sep s []

/-- Does the pattern (first argument) occur at the start of the second? -/
def startsWithL : Str → Str → Bool
  | [], _ => true
  | _ :: _, [] => false
  | p :: ps, c :: cs => p == c && startsWithL ps cs

/-- Python `s.find(sub)` (with running index `i`): index of the first
occurrence, `-1` if absent. -/
def pyFindAux (sub : Str) : Str → Nat → Int
  | [], i => if startsWithL sub [] then (i : Int) else -1
  | s@(_ :: cs), i => if startsWithL sub s then (i : Int) else pyFindAux sub cs (i + 1)

/-- Python `s.find(sub)`. -/
def pyFind (s sub : Str) : Int := pyFindAux sub s 0

/-- Python `sub in s` (contiguous substring containment, case sensitive). -/
def containsSub (s sub : Str) : Bool := pyFind s sub != -1

/-- `find_from_last` (sharc_net.py 164-169): position of the last occurrence
of `substring`, computed in the source as `string[::-1].find(substring)`
and reflected back; `-1` when absent. -/
def find_from_last (s sub : Str) : Int :=
  let index_back := pyFind s.reverse sub
  if index_back = -1 then -1 else (s.length : Int) - index_back - 1

/-- `split_last_sentence` (sharc_net.py 171-176): split at the last period,
`(sentences[:index+1], sentences[index+2:])`; when there is no period the
first component is empty and the second is the whole input. -/
def split_last_sentence (sentences : Str) : Str × Str :=
  let index := find_from_last sentences (str ".")
  if index = -1 then ([], sentences)
  else (sentences.take (index + 1).toNat, sentences.drop (index + 2).toNat)

/-- The exclusion list of `modify_rule` (sharc_net.py 187).  The Python
source writes `['#,' 'both', 'following', 'either', 'including',
'include']`: the adjacent literals `'#,' 'both'` concatenate, so the first
element is the single garbled string `#,both`, and the word `both` on its
own is NOT an element. -/
def exclude_words : List Str :=
  [str "#," ++ str "both", str "following", str "either", str "including", str "include"]

/- Model of `pattern.search(rule)` for the regex of `modify_rule`
(sharc_net.py 179-180):

    (.*?)\n*^(.+):\n\n((?:^\* .+\n*)+)     with re.MULTILINE

Derivation of the line-based form implemented below.  `.` never matches a
newline, `^` matches at the string start and after every newline.  A match
therefore decomposes as: group 1 is a newline-free span, `\n*` a run of
newlines, and `^(.+):\n\n` forces a line that consists of at least one
character followed by a final colon followed by a blank line (the colon
must be the last character of its line because the regex requires a newline
right after it).  Group 3 then consumes, greedily, one or more bullet
lines: each is `* ` followed by at least one non-newline character, then a
maximal run of newlines; iteration continues exactly while the position
after that run starts another `* ` bullet line.

`re.search` tries start positions left to right; at each start the lazy
group 1 is as short as possible and `\n*` as long as possible.  Unfolding
this order, the label line that wins is the FIRST nonempty line whose tail
satisfies `(.+):\n\n(bullets)`; group 1 is then the closest preceding
nonempty line (the empty string when there is none, in particular when the
label line is the first line or is preceded only by blank lines).  This was
cross-checked against CPython's `re` on the corner cases: label line at the
start, leading blank lines, several blank lines before the label, colons in
the middle of lines, a failing earlier label line, bullet blocks with
trailing text, blank lines inside the bullet block, and unterminated final
bullet lines. -/

/-- The longest newline-free head of `l`: the current line's content. -/
def takeLine (l : Str) : Str := l.takeWhile (fun c => c != '\n')

/-- Greedy match of `(?:^\* .+\n*)+` at a line start: `none` when no bullet
line starts here, otherwise the longest matched block.  `fuel` only forces
termination; callers pass `l.length + 1`, which never runs out because each
iteration consumes at least three characters. -/
def bulletsFromAux : Nat → Str → Option Str
  | 0, _ => none
  | fuel + 1, l =>
    match l with
    | '*' :: ' ' :: rest =>
      let line := takeLine rest
      if line.isEmpty then none
      else
        let afterLine := rest.drop line.length
        let nls := afterLine.takeWhile (fun c => c == '\n')
        if nls.isEmpty then some ('*' :: ' ' :: line)
        else
          match bulletsFromAux fuel (afterLine.drop nls.length) with
          | some more => some ('*' :: ' ' :: (line ++ nls ++ more))
          | none => some ('*' :: ' ' :: (line ++ nls))
    | _ => none

/-- Greedy match of `(?:^\* .+\n*)+` at a line start. -/
def bulletsFrom (l : Str) : Option Str := bulletsFromAux (l.length + 1) l

/-- Attempt `(.+):\n\n((?:^\* .+\n*)+)` at a line start: the current line
must be a nonempty text followed by a final colon (group 2 is the line
minus that colon), then a blank line, then the bullet block (group 3). -/
def labelBulletsAt (l : Str) : Option (Str × Str) :=
  match l.drop (takeLine l).length with
  | '\n' :: '\n' :: rest2 =>
    if (takeLine l).getLast? = some ':' ∧ 2 ≤ (takeLine l).length then
      match bulletsFrom rest2 with
      | some g3 => some ((takeLine l).dropLast, g3)
      | none => none
    else none
  | _ => none

/-- Join lines with single newlines (left inverse of `pySplit '\n'`). -/
def joinLines : List Str → Str
  | [] => []
  | [l] => l
  | l :: ls => l ++ '\n' :: joinLines ls

/-- Walk the lines of the input left to right looking for the first line
satisfying `labelBulletsAt`; `prev` is the most recent nonempty line
already passed, i.e. the text captured by the lazy group 1 for a match at
the next candidate line. -/
def searchLines (prev : Str) : List Str → Option (Str × Str × Str)
  | [] => none
  | ln :: rest =>
    if ln.isEmpty then searchLines prev rest
    else
      match labelBulletsAt (joinLines (ln :: rest)) with
      | some (g2, g3) => some (prev, g2, g3)
      | none => searchLines ln rest

/-- `pattern.search(rule)` of `modify_rule`, returning the three captured
groups (see the derivation above). -/
def patternSearch (rule : Str) : Option (Str × Str × Str) :=
  searchLines [] (pySplit '\n' rule)

/-- `modify_rule` (sharc_net.py 178-195). -/
def modify_rule (rule : Str) : Str :=
  match patternSearch rule with
  | none => rule
  | some (g1, g2, g3) =>
    let pc := split_last_sentence g2
    let pretext := g1 ++ '\n' :: pc.1
    let condition := pc.2
    if exclude_words.any (fun w => containsSub condition w) then rule
    else
      let bullets_list :=
        (pySplit '\n' g3).map (fun a => condition ++ (' ' :: a.drop 2) ++ ['.', '\n'])
      pretext ++ '\n' :: bullets_list.flatten

/- Model of `text_to_instance` (sharc_net.py 197-288).  Tokenizers and the
two vocabulary-dependent fields are external collaborators: tokenizers are
passed as plain functions, and token-sequence fields (`TextField`,
`NamespaceSwappingField`) are modelled by the token lists they are built
from.  Optionally-present fields of the produced instance are `Option`s. -/

/-- `allennlp.common.util.START_SYMBOL`. -/
def START_SYMBOL : Str := str "@start@"

/-- `allennlp.common.util.END_SYMBOL`. -/
def END_SYMBOL : Str := str "@end@"

/-- One entry of the `history` list: a prior follow-up exchange. -/
structure HistoryTurn where
  follow_up_question : Str
  follow_up_answer : Str
deriving DecidableEq

/-- `evidence` entries are JSON objects, passed through untouched. -/
abbrev Evidence := List (List (Str × Str))

/-- The fields of the produced `Instance` (plus the metadata bundle).
Fields only present in training mode are `Option`s; `none` means the key is
absent from `fields_dict` (resp. from `meta_fields`). -/
structure InstanceModel where
  source_tokens : List Token
  source_to_target : List Token
  passage : List Token
  question : List Token
  source_token_ids : List Nat
  target_tokens : Option (List Token)
  target_token_ids : Option (List Nat)
  label : Option Str
  meta_source_tokens : List Str
  meta_target_tokens : Option (List Str)
  meta_rule_text : Str
  meta_question : Str
  meta_scenario : Str
  meta_history : List HistoryTurn
deriving DecidableEq

/-- sharc_net.py 223-225: `source_string = ' @@RS@@ ' + rule_text + ' @@RE@@ '`
followed by appending each history turn's follow-up question and a space. -/
def sourceString (rule_text : Str) (history : List HistoryTurn) : Str :=
  history.foldl (fun s t => s ++ t.follow_up_question ++ str " ")
    (str " @@RS@@ " ++ rule_text ++ str " @@RE@@ ")

/-- sharc_net.py 246-253: the question text of the extractive view. -/
def questionText (question scenario : Str) (history : List HistoryTurn) : Str :=
  (history.foldl
    (fun s t => s ++ str "@@QS@@ " ++ t.follow_up_question ++ str " " ++ t.follow_up_answer ++ str " ")
    (str "@@QS@@ " ++ question ++ str " @@SS@@ " ++ scenario ++ str " @@HS@@ ")) ++ str "@@HE@@"

/-- `tokens.insert(0, Token(START_SYMBOL)); tokens.append(Token(END_SYMBOL))`
(sharc_net.py 230-231 and 263-264). -/
def wrapTokens (toks : List Token) : List Token :=
  ⟨START_SYMBOL⟩ :: (toks ++ [⟨END_SYMBOL⟩])

/-- Python `l[1:-1]`. -/
def pySlice1 {α : Type} (l : List α) : List α := (l.drop 1).dropLast

/-- The token sequence handed to `_tokens_to_ids` in training mode
(sharc_net.py 269-270): `tokenized_source[1:-1] + tokenized_target`. -/
def trainAlignerTokens (tokenized_source tokenized_target : List Token) : List Token :=
  pySlice1 tokenized_source ++ tokenized_target

/-- The token sequence handed to `_tokens_to_ids` in inference mode
(sharc_net.py 279): `tokenized_source[1:-1]`. -/
def inferAlignerTokens (tokenized_source : List Token) : List Token :=
  pySlice1 tokenized_source

/-- sharc_net.py 276: `'More' if answer not in ['Yes', 'No', 'Irrelevant'] else answer`. -/
def labelAction (answer : Str) : Str :=
  if answer ∈ [str "Yes", str "No", str "Irrelevant"] then answer else str "More"

/-- `text_to_instance` (sharc_net.py 197-288).  The parameters
`utterance_id`, `tree_id`, `source_url` and `evidence` are accepted and
ignored, exactly as in the source.  The method's return type is
`Optional[Instance]`; the body always ends in `return Instance(fields_dict)`,
modelled by the final `some`. -/
def text_to_instance (source_tokenizer target_tokenizer bidaf_tokenizer : Str → List Token)
    (rule_text question scenario : Str) (history : List HistoryTurn)
    (_utterance_id _tree_id _source_url : Option Str)
    (answer : Option Str) (_evidence : Option Evidence) : Option InstanceModel :=
  let source_string := sourceString rule_text history
  let target_string := answer
  let tokenized_source := wrapTokens (source_tokenizer source_string)
  let meta_source := (pySlice1 tokenized_source).map Token.text
  let passage_tokens := bidaf_tokenizer rule_text
  let question_tokens := bidaf_tokenizer (questionText question scenario history)
  match target_string with
  | some ans =>
    let tokenized_target := wrapTokens (target_tokenizer ans)
    let source_and_target_token_ids :=
      tokens_to_ids (trainAlignerTokens tokenized_source tokenized_target)
    let source_token_ids := source_and_target_token_ids.take (tokenized_source.length - 2)
    let target_token_ids := source_and_target_token_ids.drop (tokenized_source.length - 2)
    some
      { source_tokens := tokenized_source
        source_to_target := pySlice1 tokenized_source
        passage := passage_tokens
        question := question_tokens
        source_token_ids := source_token_ids
        target_tokens := some tokenized_target
        target_token_ids := some target_token_ids
        label := some (labelAction ans)
        meta_source_tokens := meta_source
        meta_target_tokens := some ((pySlice1 tokenized_target).map Token.text)
        meta_rule_text := rule_text
        meta_question := question
        meta_scenario := scenario
        meta_history := history }
  | none =>
    some
      { source_tokens := tokenized_source
        source_to_target := pySlice1 tokenized_source
        passage := passage_tokens
        question := question_tokens
        source_token_ids := tokens_to_ids (inferAlignerTokens tokenized_source)
        target_tokens := none
        target_token_ids := none
        label := none
        meta_source_tokens := meta_source
        meta_target_tokens := none
        meta_rule_text := rule_text
        meta_question := question
        meta_scenario := scenario
        meta_history := history }

/- Model of the `_read` loop (sharc_net.py 135-154). -/

/-- One record of the input JSON array; `answer`/`evidence` are `none` when
the corresponding key is absent from the record. -/
structure Utterance where
  utterance_id : Str
  tree_id : Str
  source_url : Str
  snippet : Str
  question : Str
  scenario : Str
  history : List HistoryTurn
  answer : Option Str
  evidence : Option Evidence

/-- Python `UnboundLocalError` raised when `_read` references a local that
was never assigned (the call arguments are evaluated left to right, so the
`answer` argument is evaluated before `evidence`). -/
inductive ReadError
  | unboundLocalAnswer
  | unboundLocalEvidence
deriving DecidableEq

/-- The `for utterance in dataset` loop of `_read` (sharc_net.py 135-154).
The state carries the Python locals `answer` and `evidence`, which persist
from one iteration to the next and start unbound (`none`).  They are
reassigned only when the corresponding key is present (lines 144-147).  The
result is the list of yielded instances together with the error, if any,
that terminates the generator. -/
def readFold (st tt bt : Str → List Token) :
    List Utterance → Option Str → Option Evidence → List InstanceModel × Option ReadError
  | [], _, _ => ([], none)
  | u :: us, ansVar, evidVar =>
    let ansVar2 := match u.answer with | some a => some a | none => ansVar
    let evidVar2 := match u.evidence with | some e => some e | none => evidVar
    match ansVar2 with
    | none => ([], some ReadError.unboundLocalAnswer)
    | some a =>
      match evidVar2 with
      | none => ([], some ReadError.unboundLocalEvidence)
      | some e =>
        match text_to_instance st tt bt u.snippet u.question u.scenario u.history
            (some u.utterance_id) (some u.tree_id) (some u.source_url) (some a) (some e) with
        | some inst =>
          let r := readFold st tt bt us ansVar2 evidVar2
          (inst :: r.1, r.2)
        | none => readFold st tt bt us ansVar2 evidVar2

/-- `_read` (sharc_net.py 127-154) after the external JSON loading: both
locals start unbound. -/
def pyRead (st tt bt : Str → List Token) (dataset : List Utterance) :
    List InstanceModel × Option ReadError :=
  readFold st tt bt dataset none none

/- Specification-side helpers and concrete objects used in the claims. -/

/-- A trivial stand-in for the external tokenizer, used only to instantiate
universally quantified theorems at concrete inputs: the whole text becomes
one token. -/
def oneTok : Str → List Token := fun s => [⟨s⟩]

/-- A whitespace-splitting stand-in for the external tokenizer, used only to
instantiate universally quantified theorems at concrete inputs. -/
def spaceTok : Str → List Token :=
  fun s => ((pySplit ' ' s).filter (fun w => ¬w.isEmpty)).map (fun w => ⟨w⟩)

/-- A concrete record whose `answer` key is absent. -/
def demoUttNoAnswer : Utterance :=
  { utterance_id := str "u1", tree_id := str "t1", source_url := str "s"
    snippet := str "r", question := str "q", scenario := str "sc"
    history := [], answer := none, evidence := none }

/-- A concrete record carrying an `answer` and an `evidence` key. -/
def demoUttAnswer : Utterance :=
  { utterance_id := str "u2", tree_id := str "t2", source_url := str "s"
    snippet := str "r", question := str "q", scenario := str "sc"
    history := [], answer := some (str "Yes"), evidence := some [] }
theorem seenIdx_append_left {k : Str} {l : List Str} (l2 : List Str) (h : k ∈ l) :
    seenIdx k (l ++ l2) = seenIdx k l := by
  induction l with
  | nil => cases h
  | cons a l ih =>
    by_cases ha : a = k
    · simp [seenIdx, ha]
    · have : k ∈ l := by
        rcases List.mem_cons.mp h with h1 | h1
        · exact absurd h1.symm ha
        · exact h1
      simp [seenIdx, ha, ih this]

theorem seenIdx_append_new {k : Str} {l : List Str} (h : k ∉ l) :
    seenIdx k (l ++ [k]) = l.length := by
  induction l with
  | nil => simp [seenIdx]
  | cons a l ih =>
    have ha : a ≠ k := fun hc => h (by simp [hc])
    have : k ∉ l := fun hc => h (by simp [hc])
    simp [seenIdx, ha, ih this]

theorem seenIdx_inj {k1 k2 : Str} {l : List Str} (h1 : k1 ∈ l) (h2 : k2 ∈ l)
    (h : seenIdx k1 l = seenIdx k2 l) : k1 = k2 := by
  induction l with
  | nil => cases h1
  | cons a l ih =>
    by_cases e1 : a = k1
    · by_cases e2 : a = k2
      · exact e1.symm.trans e2
      · exfalso
        simp only [seenIdx, if_pos e1, if_neg e2] at h
        omega
    · by_cases e2 : a = k2
      · exfalso
        simp only [seenIdx, if_pos e2, if_neg e1] at h
        omega
      · have m1 : k1 ∈ l := by
          rcases List.mem_cons.mp h1 with hx | hx
          · exact absurd hx.symm e1
          · exact hx
        have m2 : k2 ∈ l := by
          rcases List.mem_cons.mp h2 with hx | hx
          · exact absurd hx.symm e2
          · exact hx
        simp only [seenIdx, if_neg e1, if_neg e2] at h
        exact ih m1 m2 (by omega)

theorem dictGet?_append (k k2 : Str) (v : Nat) (d : List (Str × Nat)) :
    dictGet? k (d ++ [(k2, v)]) =
      match dictGet? k d with
      | some w => some w
      | none => if k2 = k then some v else none := by
  induction d with
  | nil => simp [dictGet?]
  | cons p d ih =>
    by_cases hp : p.1 = k
    · simp [dictGet?, hp]
    · simpa [dictGet?, hp] using ih

theorem goodDict_nil : goodDict [] := by
  intro k
  simp [dictGet?, keysOf]

theorem goodDict_insert {d : List (Str × Nat)} (hd : goodDict d) {k : Str}
    (hk : k ∉ keysOf d) : goodDict (d ++ [(k, d.length)]) := by
  intro k2
  have hkeys : keysOf (d ++ [(k, d.length)]) = keysOf d ++ [k] := by
    simp [keysOf]
  rw [dictGet?_append, hd k2, hkeys]
  by_cases hmem : k2 ∈ keysOf d
  · have hkk : k ≠ k2 := fun e => hk (e ▸ hmem)
    simp [hmem, seenIdx_append_left [k] hmem]
  · by_cases he : k = k2
    · subst he
      have hlen : (keysOf d).length = d.length := by simp [keysOf]
      simp [hmem, seenIdx_append_new hk, hlen]
    · have he2 : ¬(k2 = k) := fun hc => he hc.symm
      simp [hmem, he2, he]

theorem firstSeenAux_ext (ts : List Token) (acc : List Str) :
    ∃ ext, firstSeenAux ts acc = acc ++ ext := by
  induction ts generalizing acc with
  | nil => exact ⟨[], by simp [firstSeenAux]⟩
  | cons t ts ih =>
    by_cases hm : pyLower t.text ∈ acc
    · rcases ih acc with ⟨ext, hext⟩
      exact ⟨ext, by simp [firstSeenAux, hm, hext]⟩
    · rcases ih (acc ++ [pyLower t.text]) with ⟨ext, hext⟩
      exact ⟨pyLower t.text :: ext, by simp [firstSeenAux, hm, hext]⟩

theorem mem_firstSeenAux {t : Token} {ts : List Token} (acc : List Str)
    (h : t ∈ ts) : pyLower t.text ∈ firstSeenAux ts acc := by
  induction ts generalizing acc with
  | nil => cases h
  | cons t2 ts ih =>
    by_cases hm : pyLower t2.text ∈ acc
    · rw [firstSeenAux.eq_def]
      simp only [hm, if_true]
      rcases List.mem_cons.mp h with he | hmem
      · subst he
        rcases firstSeenAux_ext ts acc with ⟨ext, hext⟩
        rw [hext]
        exact List.mem_append_left _ hm
      · exact ih acc hmem
    · rw [firstSeenAux.eq_def]
      simp only [hm, if_false]
      rcases List.mem_cons.mp h with he | hmem
      · subst he
        rcases firstSeenAux_ext ts (acc ++ [pyLower t.text]) with ⟨ext, hext⟩
        rw [hext]
        exact List.mem_append_left _ (by simp)
      · exact ih _ hmem

theorem firstSeenAux_nodup {ts : List Token} {acc : List Str} (h : acc.Nodup) :
    (firstSeenAux ts acc).Nodup := by
  induction ts generalizing acc with
  | nil => simpa [firstSeenAux] using h
  | cons t ts ih =>
    by_cases hm : pyLower t.text ∈ acc
    · simpa [firstSeenAux, hm] using ih h
    · have : (acc ++ [pyLower t.text]).Nodup := by
        simp [List.nodup_append, h, hm]
      simpa [firstSeenAux, hm] using ih this

theorem tokens_to_ids_aux_eq (ts : List Token) :
    ∀ d, goodDict d →
      tokens_to_ids_aux ts d =
        ts.map (fun t => seenIdx (pyLower t.text) (firstSeenAux ts (keysOf d))) := by
  induction ts with
  | nil => intro d _; simp [tokens_to_ids_aux, firstSeenAux]
  | cons t ts ih =>
    intro d hd
    by_cases hm : pyLower t.text ∈ keysOf d
    · have hget : dictGet? (pyLower t.text) d = some (seenIdx (pyLower t.text) (keysOf d)) := by
        rw [hd]; simp [hm]
      have hstep : firstSeenAux (t :: ts) (keysOf d) = firstSeenAux ts (keysOf d) := by
        rw [firstSeenAux.eq_def]; simp [hm]
      rcases firstSeenAux_ext ts (keysOf d) with ⟨ext, hext⟩
      rw [tokens_to_ids_aux.eq_def]
      simp only [setdefault, hget, hstep, List.map_cons]
      congr 1
      · rw [hext, seenIdx_append_left ext hm]
      · exact ih d hd
    · have hget : dictGet? (pyLower t.text) d = none := by
        rw [hd]; simp [hm]
      have hstep : firstSeenAux (t :: ts) (keysOf d) =
          firstSeenAux ts (keysOf d ++ [pyLower t.text]) := by
        rw [firstSeenAux.eq_def]; simp [hm]
      have hkeys : keysOf (d ++ [(pyLower t.text, d.length)]) = keysOf d ++ [pyLower t.text] := by
        simp [keysOf]
      rcases firstSeenAux_ext ts (keysOf d ++ [pyLower t.text]) with ⟨ext, hext⟩
      rw [tokens_to_ids_aux.eq_def]
      simp only [setdefault, hget, hstep, List.map_cons]
      congr 1
      · rw [hext, seenIdx_append_left ext (by simp), seenIdx_append_new hm]
        simp [keysOf]
      · rw [ih _ (goodDict_insert hd hm), hkeys]

theorem tokens_to_ids_eq_map (tokens : List Token) :
    tokens_to_ids tokens =
      tokens.map (fun t => seenIdx (pyLower t.text) (firstSeen tokens)) := by
  have := tokens_to_ids_aux_eq tokens [] goodDict_nil
  simpa [tokens_to_ids, firstSeen, keysOf] using this

theorem getD_map_lt {α β : Type} (f : α → β) (l : List α) (i : Nat)
    (h : i < l.length) (d : β) (d2 : α) : (l.map f).getD i d = f (l.getD i d2) := by
  induction l generalizing i with
  | nil => simp at h
  | cons a l ih =>
    cases i with
    | zero => simp
    | succ n =>
      have : n < l.length := by simpa using h
      simpa using ih n this

theorem getD_mem {α : Type} (l : List α) (i : Nat) (h : i < l.length) (d : α) :
    l.getD i d ∈ l := by
  induction l generalizing i with
  | nil => simp at h
  | cons a l ih =>
    cases i with
    | zero => simp
    | succ n =>
      have : n < l.length := by simpa using h
      simpa using Or.inr (ih n this)

/-- Claim C1: for every token sequence, `_tokens_to_ids` returns one id per
token in input order (same length); two positions receive equal ids iff the
lowercase surface forms of their tokens are equal; and every position's id
is the index of its lowercase form in the list of distinct lowercase forms
ordered by first occurrence (so each new form receives the next unused
integer, starting at 0, in strict first-seen order). -/
theorem claim1_aligner (tokens : List Token) :
    (tokens_to_ids tokens).length = tokens.length ∧
    (∀ i j, i < tokens.length → j < tokens.length →
      ((tokens_to_ids tokens).getD i 0 = (tokens_to_ids tokens).getD j 0 ↔
        pyLower ((tokens.getD i ⟨[]⟩).text) = pyLower ((tokens.getD j ⟨[]⟩).text))) ∧
    (∀ i, i < tokens.length →
      (tokens_to_ids tokens).getD i 0 =
        seenIdx (pyLower ((tokens.getD i ⟨[]⟩).text)) (firstSeen tokens)) ∧
    (firstSeen tokens).Nodup := by
  have hmap := tokens_to_ids_eq_map tokens
  have hidx : ∀ i, i < tokens.length →
      (tokens_to_ids tokens).getD i 0 =
        seenIdx (pyLower ((tokens.getD i ⟨[]⟩).text)) (firstSeen tokens) := by
    intro i hi
    rw [hmap]
    exact getD_map_lt _ tokens i hi 0 ⟨[]⟩
  refine ⟨by rw [hmap]; simp, ?_, hidx, firstSeenAux_nodup List.nodup_nil⟩
  intro i j hi hj
  rw [hidx i hi, hidx j hj]
  constructor
  · intro h
    have mi : pyLower ((tokens.getD i ⟨[]⟩).text) ∈ firstSeen tokens :=
      mem_firstSeenAux [] (getD_mem tokens i hi ⟨[]⟩)
    have mj : pyLower ((tokens.getD j ⟨[]⟩).text) ∈ firstSeen tokens :=
      mem_firstSeenAux [] (getD_mem tokens j hj ⟨[]⟩)
    exact seenIdx_inj mi mj h
  · intro h
    rw [h]

/-- Concrete token list used to instantiate claim C1. -/
def demoTokens : List Token := [⟨str "Yes"⟩, ⟨str "no"⟩, ⟨str "yes"⟩]

/-- Witness for claim C1 at a concrete input: positions 0 and 2 hold tokens
`Yes` and `yes`, so they receive the same alignment id. -/
theorem claim1_witness :
    (0 < demoTokens.length ∧ 2 < demoTokens.length) ∧
    ((tokens_to_ids demoTokens).getD 0 0 = (tokens_to_ids demoTokens).getD 2 0 ↔
      pyLower ((demoTokens.getD 0 ⟨[]⟩).text) = pyLower ((demoTokens.getD 2 ⟨[]⟩).text)) :=
  ⟨⟨by decide, by decide⟩, (claim1_aligner demoTokens).2.1 0 2 (by decide) (by decide)⟩

/- Generic list helpers. -/

theorem getD_append_lt {α : Type} (l1 l2 : List α) (i : Nat) (d : α) (h : i < l1.length) :
    (l1 ++ l2).getD i d = l1.getD i d := by
  induction l1 generalizing i with
  | nil => simp at h
  | cons a l ih =>
    cases i with
    | zero => simp
    | succ n => simpa using ih n (by simpa using h)

theorem getD_append_ge {α : Type} (l1 l2 : List α) (i : Nat) (d : α) (h : l1.length ≤ i) :
    (l1 ++ l2).getD i d = l2.getD (i - l1.length) d := by
  induction l1 generalizing i with
  | nil => simp
  | cons a l ih =>
    cases i with
    | zero => simp at h
    | succ n => simpa using ih n (by simpa using h)

theorem dropLast_concat_of_getLast? {α : Type} {l : List α} {c : α}
    (h : l.getLast? = some c) : l.dropLast ++ [c] = l := by
  induction l with
  | nil => simp at h
  | cons a t ih =>
    cases t with
    | nil =>
      simp at h
      simp [h]
    | cons b t2 =>
      rw [List.getLast?_cons_cons] at h
      have := ih h
      simp only [List.dropLast_cons₂, List.cons_append, this]

theorem getD_reverse {l : Str} {i : Nat} (h : i < l.length) (d : Char) :
    l.reverse.getD i d = l.getD (l.length - 1 - i) d := by
  have h2 : i < l.reverse.length := by simpa using h
  have h3 : l.length - 1 - i < l.length := by omega
  rw [List.getD_eq_getElem l.reverse d h2, List.getElem_reverse, List.getD_eq_getElem l d h3]

theorem takeWhile_append_all {p : Char → Bool} {u : Str} (hu : ∀ c ∈ u, p c = true) (v : Str) :
    (u ++ v).takeWhile p = u ++ v.takeWhile p := by
  induction u with
  | nil => simp
  | cons c u ih =>
    have hc : p c = true := hu c (by simp)
    have hum : ∀ c2 ∈ u, p c2 = true := fun c2 hc2 => hu c2 (by simp [hc2])
    simp [List.takeWhile_cons, hc, ih hum]

/- Facts about `pySplit`. -/

theorem mem_pySplitAux_no_sep {sep : Char} :
    ∀ (s cur : Str), sep ∉ cur → ∀ l ∈ pySplitAux sep s cur, sep ∉ l := by
  intro s
  induction s with
  | nil =>
    intro cur hcur l hl
    simp [pySplitAux] at hl
    subst hl
    simpa using hcur
  | cons c cs ih =>
    intro cur hcur l hl
    by_cases hc : c = sep
    · rw [pySplitAux, if_pos hc] at hl
      rcases List.mem_cons.mp hl with he | hm
      · subst he
        simpa using hcur
      · exact ih [] (by simp) l hm
    · rw [pySplitAux, if_neg hc] at hl
      have : sep ∉ c :: cur := by
        intro hx
        rcases List.mem_cons.mp hx with he | hm
        · exact hc he.symm
        · exact hcur hm
      exact ih (c :: cur) this l hl

theorem mem_pySplit_no_sep {sep : Char} {s : Str} {l : Str} (h : l ∈ pySplit sep s) :
    sep ∉ l :=
  mem_pySplitAux_no_sep s [] (by simp) l h

theorem pySplitAux_append_sep {sep : Char} {u : Str} (hu : sep ∉ u) (v cur : Str) :
    pySplitAux sep (u ++ sep :: v) cur = (cur.reverse ++ u) :: pySplit sep v := by
  induction u generalizing cur with
  | nil => simp [pySplitAux, pySplit]
  | cons c u ih =>
    have hc : ¬(c = sep) := fun he => hu (by simp [he])
    have hu2 : sep ∉ u := fun hm => hu (by simp [hm])
    rw [List.cons_append, pySplitAux, if_neg hc, ih hu2]
    simp

theorem pySplit_append_sep {sep : Char} {u : Str} (hu : sep ∉ u) (v : Str) :
    pySplit sep (u ++ sep :: v) = u :: pySplit sep v := by
  have := pySplitAux_append_sep hu v []
  simpa [pySplit] using this

theorem pySplitAux_no_sep {sep : Char} {u : Str} (hu : sep ∉ u) (cur : Str) :
    pySplitAux sep u cur = [cur.reverse ++ u] := by
  induction u generalizing cur with
  | nil => simp [pySplitAux]
  | cons c u ih =>
    have hc : ¬(c = sep) := fun he => hu (by simp [he])
    have hu2 : sep ∉ u := fun hm => hu (by simp [hm])
    rw [pySplitAux, if_neg hc, ih hu2]
    simp

theorem pySplit_no_sep {sep : Char} {u : Str} (hu : sep ∉ u) : pySplit sep u = [u] := by
  simpa [pySplit] using pySplitAux_no_sep hu []

/-- Splitting the flattened newline-terminated lines recovers the lines,
plus a final empty segment. -/
theorem pySplit_flatten_lines {ws : List Str} (h : ∀ w ∈ ws, '\n' ∉ w) :
    pySplit '\n' ((ws.map (fun w => w ++ ['\n'])).flatten) = ws ++ [[]] := by
  induction ws with
  | nil => simp [pySplit, pySplitAux]
  | cons w ws ih =>
    have hw : '\n' ∉ w := h w (by simp)
    have hrest : ∀ b ∈ ws, '\n' ∉ b := fun b hb => h b (by simp [hb])
    have hshape : ((w :: ws).map (fun w2 => w2 ++ ['\n'])).flatten =
        w ++ '\n' :: ((ws.map (fun w2 => w2 ++ ['\n'])).flatten) := by
      simp
    rw [hshape, pySplit_append_sep hw, ih hrest]
    simp

/- Facts about `pyFind` specialised to the one-character pattern `"."`,
and the resulting behaviour of `find_from_last` / `split_last_sentence`. -/

theorem str_dot : str "." = ['.'] := rfl

theorem startsWithL_dot_nil : startsWithL (str ".") [] = false := rfl

theorem startsWithL_dot_cons (c : Char) (cs : Str) :
    startsWithL (str ".") (c :: cs) = ('.' == c) := by
  show ('.' == c && startsWithL [] cs) = ('.' == c)
  simp [startsWithL]

theorem pyFindAux_dot_neg {l : Str} (h : '.' ∉ l) (i : Nat) :
    pyFindAux (str ".") l i = -1 := by
  induction l generalizing i with
  | nil => rfl
  | cons c cs ih =>
    have hc : ¬('.' = c) := fun he => h (List.mem_cons.mpr (Or.inl he))
    have hcs : '.' ∉ cs := fun hm => h (List.mem_cons.mpr (Or.inr hm))
    rw [pyFindAux, startsWithL_dot_cons]
    simp only [beq_iff_eq, hc, if_false]
    exact ih hcs (i + 1)

theorem pyFindAux_dot_pos {l : Str} (h : '.' ∈ l) (i : Nat) :
    ∃ k, k < l.length ∧ l.getD k ' ' = '.' ∧ (∀ j, j < k → l.getD j ' ' ≠ '.') ∧
      pyFindAux (str ".") l i = (i : Int) + k := by
  induction l generalizing i with
  | nil => cases h
  | cons c cs ih =>
    by_cases hc : '.' = c
    · refine ⟨0, by simp, by simp [hc.symm], ?_, ?_⟩
      · intro j hj
        exact absurd hj (Nat.not_lt_zero j)
      · rw [pyFindAux, startsWithL_dot_cons, hc]
        simp
    · have hcs : '.' ∈ cs := by
        rcases List.mem_cons.mp h with he | hm
        · exact absurd he hc
        · exact hm
      rcases ih hcs (i + 1) with ⟨k, hk, hdot, hfirst, heq⟩
      refine ⟨k + 1, by simpa using hk, by simpa using hdot, ?_, ?_⟩
      · intro j hj
        cases j with
        | zero => simpa using fun he => hc he.symm
        | succ j2 => simpa using hfirst j2 (by omega)
      · rw [pyFindAux, startsWithL_dot_cons]
        simp only [beq_iff_eq, hc, if_false]
        rw [heq]
        push_cast
        omega

theorem find_from_last_dot_neg {s : Str} (h : '.' ∉ s) : find_from_last s (str ".") = -1 := by
  have hr : '.' ∉ s.reverse := by simpa using h
  simp [find_from_last, pyFind, pyFindAux_dot_neg hr]

theorem find_from_last_dot_pos {s : Str} (h : '.' ∈ s) :
    ∃ k, k < s.length ∧ s.getD k ' ' = '.' ∧
      (∀ j, k < j → j < s.length → s.getD j ' ' ≠ '.') ∧
      find_from_last s (str ".") = (k : Int) := by
  have hr : '.' ∈ s.reverse := by simpa using h
  rcases pyFindAux_dot_pos hr 0 with ⟨k0, hk0, hdot, hfirst, heq⟩
  have hk0len : k0 < s.length := by simpa using hk0
  have hpos : 0 < s.length := by
    cases s with
    | nil => cases h
    | cons a t => simp
  refine ⟨s.length - 1 - k0, by omega, ?_, ?_, ?_⟩
  · have := getD_reverse (l := s) (i := k0) (by omega) ' '
    rw [this] at hdot
    exact hdot
  · intro j hj hjlen hdotj
    have hj0 : s.length - 1 - j < k0 := by omega
    have := hfirst (s.length - 1 - j) hj0
    have hrev := getD_reverse (l := s) (i := s.length - 1 - j) (by omega) ' '
    rw [hrev] at this
    have hback : s.length - 1 - (s.length - 1 - j) = j := by omega
    rw [hback] at this
    exact this hdotj
  · have hfind : pyFind s.reverse (str ".") = (k0 : Int) := by
      simpa [pyFind] using heq
    have hne : ((k0 : Int)) ≠ -1 := by omega
    simp only [find_from_last, hfind]
    rw [if_neg hne]
    omega

theorem split_last_sentence_no_dot {s : Str} (h : '.' ∉ s) :
    split_last_sentence s = ([], s) := by
  simp [split_last_sentence, find_from_last_dot_neg h]

theorem split_last_sentence_dot {s : Str} (h : '.' ∈ s) :
    ∃ k, k < s.length ∧ s.getD k ' ' = '.' ∧
      (∀ j, k < j → j < s.length → s.getD j ' ' ≠ '.') ∧
      split_last_sentence s = (s.take (k + 1), s.drop (k + 2)) := by
  rcases find_from_last_dot_pos h with ⟨k, hk, hdot, hlast, heq⟩
  refine ⟨k, hk, hdot, hlast, ?_⟩
  have hne : ((k : Int)) ≠ -1 := by omega
  have h1 : ((k : Int) + 1).toNat = k + 1 := by omega
  have h2 : ((k : Int) + 2).toNat = k + 2 := by omega
  simp only [split_last_sentence, heq]
  rw [if_neg hne, h1, h2]

/- Facts about `takeLine`, `joinLines`, `labelBulletsAt`, `searchLines`. -/

theorem takeLine_no_nl {u : Str} (hu : '\n' ∉ u) : takeLine u = u := by
  unfold takeLine
  induction u with
  | nil => rfl
  | cons c cs ih =>
    have hc : c ≠ '\n' := fun he => hu (by simp [he])
    have hcs : '\n' ∉ cs := fun hm => hu (by simp [hm])
    simp [List.takeWhile_cons, hc, ih hcs]

theorem takeLine_append_nl {u : Str} (hu : '\n' ∉ u) (v : Str) :
    takeLine (u ++ '\n' :: v) = u := by
  unfold takeLine
  have hall : ∀ c ∈ u, (fun c => c != '\n') c = true := by
    intro c hc
    have : c ≠ '\n' := fun he => hu (he ▸ hc)
    simpa using this
  rw [takeWhile_append_all hall]
  simp [List.takeWhile_cons]

theorem joinLines_cons_cons (ln l2 : Str) (rest : List Str) :
    joinLines (ln :: l2 :: rest) = ln ++ '\n' :: joinLines (l2 :: rest) := rfl

theorem takeLine_joinLines {ln : Str} (hln : '\n' ∉ ln) (rest : List Str) :
    takeLine (joinLines (ln :: rest)) = ln := by
  cases rest with
  | nil => exact takeLine_no_nl hln
  | cons l2 rest2 =>
    rw [joinLines_cons_cons]
    exact takeLine_append_nl hln _

/-- Inversion for `labelBulletsAt`: a successful match means the current
line is nonempty text ending in a colon and group 2 is that line minus the
colon. -/
theorem labelBulletsAt_some {l : Str} {g2 g3 : Str} (h : labelBulletsAt l = some (g2, g3)) :
    (takeLine l).getLast? = some ':' ∧ 2 ≤ (takeLine l).length ∧ g2 = (takeLine l).dropLast := by
  unfold labelBulletsAt at h
  split at h
  · split at h
    · rename_i hcond
      split at h
      · rename_i g3x hbul
        injection h with h2
        injection h2 with ha hb
        exact ⟨hcond.1, hcond.2, ha.symm⟩
      · cases h
    · cases h
  · cases h

/-- Inversion for `searchLines`: a successful search exhibits a line equal
to `group2 ++ ":"`, and group 1 is either the starting `prev` with only
empty lines before the label line, or a nonempty line occurring before the
label line with only empty lines in between. -/
theorem searchLines_some :
    ∀ (L : List Str), (∀ l ∈ L, '\n' ∉ l) →
      ∀ prev g1 g2 g3, searchLines prev L = some (g1, g2, g3) →
        ∃ i, i < L.length ∧ L.getD i [] = g2 ++ [':'] ∧
          ((g1 = prev ∧ ∀ j, j < i → L.getD j [] = []) ∨
           (∃ j, j < i ∧ L.getD j [] = g1 ∧ g1 ≠ [] ∧
             ∀ k2, j < k2 → k2 < i → L.getD k2 [] = [])) := by
  intro L
  induction L with
  | nil =>
    intro _ prev g1 g2 g3 h
    cases h
  | cons ln rest ih =>
    intro hno prev g1 g2 g3 h
    have hnoln : '\n' ∉ ln := hno ln (by simp)
    have hnorest : ∀ l ∈ rest, '\n' ∉ l := fun l hl => hno l (by simp [hl])
    rw [searchLines] at h
    by_cases hln : ln.isEmpty
    · rw [if_pos hln] at h
      rcases ih hnorest prev g1 g2 g3 h with ⟨i, hi, hline, hdisj⟩
      have hlnnil : ln = [] := List.isEmpty_iff.mp hln
      refine ⟨i + 1, by simpa using hi, by simpa using hline, ?_⟩
      rcases hdisj with ⟨hg1, hempty⟩ | ⟨j, hji, hj, hne, hbet⟩
      · left
        refine ⟨hg1, ?_⟩
        intro j hj
        cases j with
        | zero => simpa using hlnnil
        | succ j2 => simpa using hempty j2 (by omega)
      · right
        refine ⟨j + 1, by omega, by simpa using hj, hne, ?_⟩
        intro k2 hk2a hk2b
        cases k2 with
        | zero => omega
        | succ k3 => simpa using hbet k3 (by omega) (by omega)
    · rw [if_neg hln] at h
      cases hlb : labelBulletsAt (joinLines (ln :: rest)) with
      | some p =>
        rw [hlb] at h
        obtain ⟨g2x, g3x⟩ := p
        injection h with h2
        injection h2 with ha hbc
        injection hbc with hb hc
        rcases labelBulletsAt_some hlb with ⟨hcolon, hlen, hg2⟩
        rw [takeLine_joinLines hnoln] at hcolon hlen hg2
        have hlneq : ln = g2 ++ [':'] := by
          rw [← hb, hg2]
          exact (dropLast_concat_of_getLast? hcolon).symm
        refine ⟨0, by simp, by simpa using hlneq, ?_⟩
        left
        exact ⟨ha.symm, fun j hj => absurd hj (Nat.not_lt_zero j)⟩
      | none =>
        rw [hlb] at h
        rcases ih hnorest ln g1 g2 g3 h with ⟨i, hi, hline, hdisj⟩
        have hlnne : ln ≠ [] := fun he => hln (by simp [he])
        refine ⟨i + 1, by simpa using hi, by simpa using hline, ?_⟩
        right
        rcases hdisj with ⟨hg1, hempty⟩ | ⟨j, hji, hj, hne, hbet⟩
        · refine ⟨0, by omega, by simpa using hg1.symm, by rw [hg1]; exact hlnne, ?_⟩
          intro k2 hk2a hk2b
          cases k2 with
          | zero => omega
          | succ k3 => simpa using hempty k3 (by omega)
        · refine ⟨j + 1, by omega, by simpa using hj, hne, ?_⟩
          intro k2 hk2a hk2b
          cases k2 with
          | zero => omega
          | succ k3 => simpa using hbet k3 (by omega) (by omega)

/- Unfoldings of `modify_rule` by case. -/

theorem modify_rule_none {rule : Str} (h : patternSearch rule = none) :
    modify_rule rule = rule := by
  simp [modify_rule, h]

theorem modify_rule_marker {rule g1 g2 g3 : Str} (hm : patternSearch rule = some (g1, g2, g3))
    (ha : exclude_words.any (fun w => containsSub (split_last_sentence g2).2 w) = true) :
    modify_rule rule = rule := by
  simp [modify_rule, hm, ha]

theorem modify_rule_flatten {rule g1 g2 g3 : Str} (hm : patternSearch rule = some (g1, g2, g3))
    (ha : exclude_words.any (fun w => containsSub (split_last_sentence g2).2 w) = false) :
    modify_rule rule =
      (g1 ++ '\n' :: (split_last_sentence g2).1) ++ '\n' ::
        ((pySplit '\n' g3).map
          (fun a => (split_last_sentence g2).2 ++ (' ' :: a.drop 2) ++ ['.', '\n'])).flatten := by
  simp [modify_rule, hm, ha]

/- The first component of `split_last_sentence` is empty or ends in a
period; neither component introduces characters not present in the input. -/

theorem getLast?_take_succ {s : Str} {k : Nat} (h : k < s.length) :
    (s.take (k + 1)).getLast? = some (s.getD k ' ') := by
  have hlen : (s.take (k + 1)).length = k + 1 := by
    simp
    omega
  rw [List.getLast?_eq_getElem?, hlen, Nat.add_sub_cancel,
    List.getElem?_take_of_lt (by omega), List.getD_eq_getElem s ' ' h,
    List.getElem?_eq_getElem h]

theorem split_last_sentence_fst (s : Str) :
    (split_last_sentence s).1 = [] ∨ (split_last_sentence s).1.getLast? = some '.' := by
  by_cases h : '.' ∈ s
  · right
    rcases split_last_sentence_dot h with ⟨k, hk, hdot, _, heq⟩
    rw [heq]
    show (s.take (k + 1)).getLast? = some '.'
    rw [getLast?_take_succ hk, hdot]
  · left
    rw [split_last_sentence_no_dot h]

theorem split_last_sentence_no_nl {s : Str} (h : '\n' ∉ s) :
    '\n' ∉ (split_last_sentence s).1 ∧ '\n' ∉ (split_last_sentence s).2 := by
  by_cases hd : '.' ∈ s
  · rcases split_last_sentence_dot hd with ⟨k, _, _, _, heq⟩
    rw [heq]
    exact ⟨fun hm => h (List.mem_of_mem_take hm), fun hm => h (List.mem_of_mem_drop hm)⟩
  · rw [split_last_sentence_no_dot hd]
    exact ⟨by simp, h⟩

/-- When the pattern matches and no exclusion marker fires, the rewritten
text always differs from the input: every line of the rewritten text either
ends in a period, is empty, or is the group 1 line, while the input
contains the label line, which ends in a colon and cannot be the group 1
line (a match whose label line is the first line captures an empty group 1). -/
theorem modify_rule_ne_of_nomarker {rule g1 g2 g3 : Str}
    (hm : patternSearch rule = some (g1, g2, g3))
    (ha : exclude_words.any (fun w => containsSub (split_last_sentence g2).2 w) = false) :
    modify_rule rule ≠ rule := by
  intro heq
  have hnos : ∀ l ∈ pySplit '\n' rule, '\n' ∉ l := fun l hl => mem_pySplit_no_sep hl
  have hsearch : searchLines [] (pySplit '\n' rule) = some (g1, g2, g3) := hm
  obtain ⟨i, hi, hline, hdisj⟩ := searchLines_some _ hnos [] g1 g2 g3 hsearch
  have hlineMem : g2 ++ [':'] ∈ pySplit '\n' rule := by
    rw [← hline]
    exact getD_mem _ i hi []
  have hg2nl : '\n' ∉ g2 := fun hx => (mem_pySplit_no_sep hlineMem) (by simp [hx])
  have hg1nl : '\n' ∉ g1 := by
    rcases hdisj with ⟨hg1, _⟩ | ⟨j, hji, hj, _, _⟩
    · rw [hg1]
      simp
    · have : g1 ∈ pySplit '\n' rule := by
        rw [← hj]
        exact getD_mem _ j (by omega) []
      exact mem_pySplit_no_sep this
  have hp2nl : '\n' ∉ (split_last_sentence g2).1 := (split_last_sentence_no_nl hg2nl).1
  have hcondnl : '\n' ∉ (split_last_sentence g2).2 := (split_last_sentence_no_nl hg2nl).2
  have hout := modify_rule_flatten hm ha
  have houtr : rule = (g1 ++ '\n' :: (split_last_sentence g2).1) ++ '\n' ::
      ((pySplit '\n' g3).map
        (fun a => (split_last_sentence g2).2 ++ (' ' :: a.drop 2) ++ ['.', '\n'])).flatten :=
    heq.symm.trans hout
  have hwsnl : ∀ w ∈ (pySplit '\n' g3).map
      (fun a => (split_last_sentence g2).2 ++ (' ' :: a.drop 2) ++ ['.']), '\n' ∉ w := by
    intro w hw
    rcases List.mem_map.mp hw with ⟨a, haMem, haEq⟩
    have hanl : '\n' ∉ a := mem_pySplit_no_sep haMem
    rw [← haEq]
    intro hx
    rcases List.mem_append.mp hx with hx1 | hx2
    · rcases List.mem_append.mp hx1 with hx3 | hx4
      · exact hcondnl hx3
      · rcases List.mem_cons.mp hx4 with he | hx5
        · exact absurd he (by decide)
        · exact hanl (List.mem_of_mem_drop hx5)
    · simp at hx2
  have hmapshape : (pySplit '\n' g3).map
        (fun a => (split_last_sentence g2).2 ++ (' ' :: a.drop 2) ++ ['.', '\n']) =
      ((pySplit '\n' g3).map
        (fun a => (split_last_sentence g2).2 ++ (' ' :: a.drop 2) ++ ['.'])).map
          (fun w => w ++ ['\n']) := by
    rw [List.map_map]
    apply List.map_congr_left
    intro a _
    simp
  have hlines : pySplit '\n' rule =
      g1 :: (split_last_sentence g2).1 ::
        (((pySplit '\n' g3).map
          (fun a => (split_last_sentence g2).2 ++ (' ' :: a.drop 2) ++ ['.'])) ++ [[]]) := by
    conv_lhs => rw [houtr]
    have hassoc : (g1 ++ '\n' :: (split_last_sentence g2).1) ++ '\n' ::
        ((pySplit '\n' g3).map
          (fun a => (split_last_sentence g2).2 ++ (' ' :: a.drop 2) ++ ['.', '\n'])).flatten =
        g1 ++ '\n' :: ((split_last_sentence g2).1 ++ '\n' ::
          ((pySplit '\n' g3).map
            (fun a => (split_last_sentence g2).2 ++ (' ' :: a.drop 2) ++ ['.', '\n'])).flatten) := by
      simp
    rw [hassoc, pySplit_append_sep hg1nl, pySplit_append_sep hp2nl, hmapshape,
      pySplit_flatten_lines hwsnl]
  rw [hlines] at hline hi hdisj
  simp only [List.length_cons, List.length_append, List.length_map, List.length_singleton] at hi
  rcases Nat.lt_or_ge i 1 with h0 | h1
  · have hi0 : i = 0 := by omega
    subst hi0
    simp only [List.getD_cons_zero] at hline
    rcases hdisj with ⟨hg1, _⟩ | ⟨j, hji, _, _, _⟩
    · rw [hg1] at hline
      exact absurd hline.symm (by simp)
    · omega
  · rcases Nat.lt_or_ge i 2 with h12 | h2
    · have hi1 : i = 1 := by omega
      subst hi1
      simp only [List.getD_cons_succ, List.getD_cons_zero] at hline
      rcases split_last_sentence_fst g2 with hnil | hdot
      · rw [hnil] at hline
        exact absurd hline.symm (by simp)
      · have hcl := congrArg List.getLast? hline
        rw [hdot, List.getLast?_concat] at hcl
        simp at hcl
    · obtain ⟨i2, rfl⟩ : ∃ i2, i = i2 + 2 := ⟨i - 2, by omega⟩
      simp only [List.getD_cons_succ] at hline
      rcases Nat.lt_or_ge i2 ((pySplit '\n' g3).map
          (fun a => (split_last_sentence g2).2 ++ (' ' :: a.drop 2) ++ ['.'])).length with hw | hw
      · rw [getD_append_lt _ _ _ _ hw] at hline
        have hmem := getD_mem ((pySplit '\n' g3).map
          (fun a => (split_last_sentence g2).2 ++ (' ' :: a.drop 2) ++ ['.'])) i2 hw []
        rcases List.mem_map.mp hmem with ⟨a, _, haEq⟩
        rw [← haEq] at hline
        have hcl := congrArg List.getLast? hline
        rw [List.getLast?_concat, List.getLast?_concat] at hcl
        simp at hcl
      · rw [getD_append_ge _ _ _ _ hw] at hline
        have hzero : ∀ n : Nat, ([([] : Str)]).getD n [] = ([] : Str) := by
          intro n
          cases n with
          | zero => rfl
          | succ m => simp [List.getD]
        rw [hzero] at hline
        exact absurd hline.symm (by simp)

/-- Claim C8: for every input in which the structural pattern does not
occur, `modify_rule` returns it unchanged, hence is idempotent there; as a
total function it never fails. -/
theorem claim8_identity_on_nonmatching (x : Str) (h : patternSearch x = none) :
    modify_rule x = x ∧ modify_rule (modify_rule x) = modify_rule x ∧
      modify_rule (modify_rule x) = x := by
  have h1 := modify_rule_none h
  have h2 : modify_rule (modify_rule x) = x := by
    rw [h1]
    exact h1
  exact ⟨h1, h2.trans h1.symm, h2⟩

/-- Witness for claim C8 at a concrete non-matching input. -/
theorem claim8_witness :
    patternSearch (str "You qualify if you are a resident.") = none ∧
    modify_rule (str "You qualify if you are a resident.") =
      str "You qualify if you are a resident." :=
  ⟨by decide, (claim8_identity_on_nonmatching _ (by decide)).1⟩

/-- Counterexample to claim C4 as stated: the word `both` is not an
exclusion marker (the code's list holds the garbled `#,both` instead), so a
matched rule whose distributed condition clause contains `both` but none of
the five literal entries is flattened rather than returned unchanged. -/
theorem claim4_counterexample :
    patternSearch (str "Go.\nIf both apply:\n\n* a\n* b\n") =
      some (str "Go.", str "If both apply", str "* a\n* b\n") ∧
    containsSub (split_last_sentence (str "If both apply")).2 (str "both") = true ∧
    modify_rule (str "Go.\nIf both apply:\n\n* a\n* b\n") ≠
      str "Go.\nIf both apply:\n\n* a\n* b\n" :=
  ⟨by decide, by decide, by decide⟩

/-- Claim C4 (amended): when the distributed condition clause contains one
of the five literal entries of `exclude_words` — `#,both` (a garbled
concatenation, in place of `both`), `following`, `either`, `including`,
`include` — `modify_rule` aborts and returns the original text unchanged. -/
theorem claim4_exclusion_fallback (rule g1 g2 g3 : Str)
    (hm : patternSearch rule = some (g1, g2, g3))
    (hw : ∃ w ∈ exclude_words, containsSub (split_last_sentence g2).2 w = true) :
    modify_rule rule = rule :=
  modify_rule_marker hm (List.any_eq_true.mpr hw)

/-- Witness for claim C4 at the spec's concrete input (the marker that
fires there is `following`, since `Both` matches no entry). -/
theorem claim4_witness :
    modify_rule (str "Check eligibility.\nBoth of the following:\n\n* age>18\n* resident\n") =
      str "Check eligibility.\nBoth of the following:\n\n* age>18\n* resident\n" :=
  claim4_exclusion_fallback _ (str "Check eligibility.") (str "Both of the following")
    (str "* age>18\n* resident\n") (by decide)
    ⟨str "following", by decide, by decide⟩

/-- Counterexample to claim C3 as stated: the claim predicts that the text
up to and including the last period (`You win.`) becomes the distributed
condition clause and the trailing remainder (`If you x`) joins the pretext,
which would rewrite the input to `A.\nIf you x\nYou win. a.\nYou win. .\n`;
the code does the opposite. -/
theorem claim3_counterexample :
    modify_rule (str "A.\nYou win. If you x:\n\n* a\n") =
      str "A.\nYou win.\nIf you x a.\nIf you x .\n" ∧
    str "A.\nYou win.\nIf you x a.\nIf you x .\n" ≠
      str "A.\nIf you x\nYou win. a.\nYou win. .\n" :=
  ⟨by decide, by decide⟩

/-- Claim C3 (amended): the split at the final period assigns the text up
to and including the last period to the PRETEXT side (first component) and
the remainder after the period — skipping the one character right after it
— to the distributed condition clause (second component); when the block
contains no period, nothing is added to the pretext and the entire block
becomes the distributed condition clause. -/
theorem claim3_split_roles (g2 : Str) :
    ('.' ∉ g2 → split_last_sentence g2 = ([], g2)) ∧
    ('.' ∈ g2 → ∃ k, k < g2.length ∧ g2.getD k ' ' = '.' ∧
      (∀ j, k < j → j < g2.length → g2.getD j ' ' ≠ '.') ∧
      split_last_sentence g2 = (g2.take (k + 1), g2.drop (k + 2))) ∧
    (∀ rule g1 g3, patternSearch rule = some (g1, g2, g3) →
      exclude_words.any (fun w => containsSub (split_last_sentence g2).2 w) = false →
      modify_rule rule =
        (g1 ++ '\n' :: (split_last_sentence g2).1) ++ '\n' ::
          ((pySplit '\n' g3).map
            (fun a => (split_last_sentence g2).2 ++ (' ' :: a.drop 2) ++ ['.', '\n'])).flatten) :=
  ⟨fun h => split_last_sentence_no_dot h, fun h => split_last_sentence_dot h,
   fun _ _ _ hm ha => modify_rule_flatten hm ha⟩

/-- Witness for claim C3 at a concrete matched input. -/
theorem claim3_witness :
    modify_rule (str "A.\nYou win. If you x:\n\n* a\n") =
      (str "A." ++ '\n' :: (split_last_sentence (str "You win. If you x")).1) ++ '\n' ::
        ((pySplit '\n' (str "* a\n")).map
          (fun a => (split_last_sentence (str "You win. If you x")).2 ++
            (' ' :: a.drop 2) ++ ['.', '\n'])).flatten :=
  (claim3_split_roles (str "You win. If you x")).2.2 _ (str "A.") (str "* a\n")
    (by decide) (by decide)

/-- Counterexample to claim C6 as stated: on the spec's own exemplar the
output carries, beyond the one rewritten line per bullet, an extra
degenerate line `Condition .` produced by the empty final segment of
`bullets.split('\n')`. -/
theorem claim6_counterexample :
    modify_rule (str "Intro.\nCondition:\n\n* item one\n* item two\n") =
      str "Intro.\n\nCondition item one.\nCondition item two.\nCondition .\n" ∧
    str "Intro.\n\nCondition item one.\nCondition item two.\nCondition .\n" ≠
      str "Intro.\n\nCondition item one.\nCondition item two.\n" :=
  ⟨by decide, by decide⟩

/-- Claim C10: the exclusion list is the five literal strings `#,both`,
`following`, `either`, `including`, `include` (so `both` on its own is not
an entry), the test is case-sensitive substring containment, and a matched
rule is returned unchanged exactly when one of the five occurs in the
distributed condition clause. -/
theorem claim10_exclusion_semantics :
    exclude_words = [str "#,both", str "following", str "either", str "including", str "include"] ∧
    ∀ rule g1 g2 g3, patternSearch rule = some (g1, g2, g3) →
      (modify_rule rule = rule ↔
        ∃ w ∈ exclude_words, containsSub (split_last_sentence g2).2 w = true) := by
  refine ⟨rfl, ?_⟩
  intro rule g1 g2 g3 hm
  constructor
  · intro heq
    by_contra hnex
    have hfalse : exclude_words.any (fun w => containsSub (split_last_sentence g2).2 w) = false := by
      cases hh : exclude_words.any (fun w => containsSub (split_last_sentence g2).2 w) with
      | false => rfl
      | true => exact absurd (List.any_eq_true.mp hh) hnex
    exact modify_rule_ne_of_nomarker hm hfalse heq
  · intro hex
    exact modify_rule_marker hm (List.any_eq_true.mpr hex)

/-- Witness for claim C10: a condition containing `includes` is left
unchanged, because `include` is a substring of `includes`. -/
theorem claim10_witness :
    modify_rule (str "Go.\nIf it includes x:\n\n* a\n") = str "Go.\nIf it includes x:\n\n* a\n" :=
  (claim10_exclusion_semantics.2 _ (str "Go.") (str "If it includes x") (str "* a\n")
    (by decide)).mpr ⟨str "include", by decide, by decide⟩

/- Facts about the instance-assembly embedding. -/

theorem pySlice1_wrapTokens (l : List Token) : pySlice1 (wrapTokens l) = l := by
  unfold pySlice1 wrapTokens
  simp

theorem tokens_to_ids_length (tokens : List Token) :
    (tokens_to_ids tokens).length = tokens.length := by
  rw [tokens_to_ids_eq_map]
  simp

theorem wrapTokens_length (l : List Token) : (wrapTokens l).length = l.length + 2 := by
  simp [wrapTokens]

theorem getD_take_lt {α : Type} (l : List α) (m i : Nat) (d : α) (h : i < m) :
    (l.take m).getD i d = l.getD i d := by
  induction l generalizing m i with
  | nil => simp
  | cons a t ih =>
    cases m with
    | zero => omega
    | succ m2 =>
      cases i with
      | zero => simp
      | succ i2 => simpa using ih m2 i2 (by omega)

theorem getD_drop {α : Type} (l : List α) (n j : Nat) (d : α) :
    (l.drop n).getD j d = l.getD (n + j) d := by
  induction l generalizing n with
  | nil => simp
  | cons a t ih =>
    cases n with
    | zero => simp
    | succ n2 =>
      have h2 := ih n2
      rw [List.drop_succ_cons, h2, Nat.succ_add, List.getD_cons_succ]

/-- Counterexample to claim C2 as stated: in training mode the target-side
sequence is passed to the aligner fully wrapped, so the target START/END
sentinels do receive alignment ids (three target ids for a one-token
answer tokenization). -/
theorem claim2_counterexample :
    Token.mk START_SYMBOL ∈
      trainAlignerTokens (wrapTokens (oneTok (sourceString (str "r") [])))
        (wrapTokens (oneTok (str "yes"))) ∧
    ∃ inst tids,
      text_to_instance oneTok oneTok oneTok (str "r") (str "q") (str "sc") []
        none none none (some (str "yes")) none = some inst ∧
      inst.target_token_ids = some tids ∧ tids.length = 3 :=
  ⟨by decide, ⟨_, _, rfl, rfl, by decide⟩⟩

/-- Claim C2 (amended): in both alignment computations the SOURCE-side
sentinels are stripped (the slice `tokenized_source[1:-1]` recovers exactly
the tokenizer output), but in training mode the target side is passed fully
wrapped, sentinels included. -/
theorem claim2_sentinel_handling (st tt : Str → List Token) (src ans : Str) :
    trainAlignerTokens (wrapTokens (st src)) (wrapTokens (tt ans)) =
      st src ++ (Token.mk START_SYMBOL :: (tt ans ++ [Token.mk END_SYMBOL])) ∧
    inferAlignerTokens (wrapTokens (st src)) = st src := by
  constructor
  · rw [trainAlignerTokens, pySlice1_wrapTokens]
    rfl
  · rw [inferAlignerTokens, pySlice1_wrapTokens]

/-- Claim C5: in training mode the alignment ids come from one joint
aligner call on the inner source tokens followed by the full wrapped
target tokens, split at `len(tokenized_source) - 2`; the slices have the
claimed lengths, and lowercase-equal source/target tokens share an id. -/
theorem claim5_joint_alignment (st tt bt : Str → List Token) (rule q sc : Str)
    (hist : List HistoryTurn) (uid tid su : Option Str) (ev : Option Evidence) (ans : Str) :
    ∃ inst tids,
      text_to_instance st tt bt rule q sc hist uid tid su (some ans) ev = some inst ∧
      inst.source_token_ids =
        (tokens_to_ids (trainAlignerTokens (wrapTokens (st (sourceString rule hist)))
          (wrapTokens (tt ans)))).take
            ((wrapTokens (st (sourceString rule hist))).length - 2) ∧
      inst.target_token_ids = some tids ∧
      tids = (tokens_to_ids (trainAlignerTokens (wrapTokens (st (sourceString rule hist)))
          (wrapTokens (tt ans)))).drop
            ((wrapTokens (st (sourceString rule hist))).length - 2) ∧
      inst.source_token_ids.length = (wrapTokens (st (sourceString rule hist))).length - 2 ∧
      tids.length = (wrapTokens (tt ans)).length ∧
      (∀ i j, i < (st (sourceString rule hist)).length → j < (wrapTokens (tt ans)).length →
        pyLower (((st (sourceString rule hist)).getD i ⟨[]⟩).text) =
          pyLower (((wrapTokens (tt ans)).getD j ⟨[]⟩).text) →
        inst.source_token_ids.getD i 0 = tids.getD j 0) := by
  refine ⟨_, _, rfl, rfl, rfl, rfl, ?_, ?_, ?_⟩
  all_goals
    have hjoint : trainAlignerTokens (wrapTokens (st (sourceString rule hist)))
        (wrapTokens (tt ans)) = st (sourceString rule hist) ++ wrapTokens (tt ans) := by
      rw [trainAlignerTokens, pySlice1_wrapTokens]
    have hm : (wrapTokens (st (sourceString rule hist))).length - 2 =
        (st (sourceString rule hist)).length := by
      rw [wrapTokens_length]
      omega
  · rw [List.length_take, tokens_to_ids_length, hjoint, hm]
    simp
  · rw [List.length_drop, tokens_to_ids_length, hjoint, hm]
    simp
  · intro i j hi hj hlow
    rw [getD_take_lt _ _ _ _ (by omega), getD_drop, hjoint, hm]
    rw [tokens_to_ids_eq_map]
    have hleni : i < ((st (sourceString rule hist)) ++ wrapTokens (tt ans)).length := by
      simp
      omega
    have hlenj : (st (sourceString rule hist)).length + j <
        ((st (sourceString rule hist)) ++ wrapTokens (tt ans)).length := by
      simp
      omega
    rw [getD_map_lt _ _ i hleni 0 ⟨[]⟩, getD_map_lt _ _ _ hlenj 0 ⟨[]⟩]
    rw [getD_append_lt _ _ _ _ hi, getD_append_ge _ _ _ _ (by omega)]
    have hjj : (st (sourceString rule hist)).length + j -
        (st (sourceString rule hist)).length = j := by omega
    rw [hjj, hlow]

/-- Witness for claim C5: with a whitespace tokenizer, source token `Yes`
(position 1) and target token `yes` (position 1 of the wrapped target)
share an alignment id, and the id slices have the claimed lengths. -/
theorem claim5_witness :
    ∃ inst tids,
      text_to_instance spaceTok spaceTok spaceTok (str "Yes") (str "q") (str "sc") []
        none none none (some (str "yes")) none = some inst ∧
      inst.target_token_ids = some tids ∧
      inst.source_token_ids.length = 3 ∧ tids.length = 3 ∧
      inst.source_token_ids.getD 1 0 = tids.getD 1 0 := by
  obtain ⟨inst, tids, h1, _, h3, _, h5, h6, h7⟩ :=
    claim5_joint_alignment spaceTok spaceTok spaceTok (str "Yes") (str "q") (str "sc") []
      none none none none (str "yes")
  refine ⟨inst, tids, h1, h3, ?_, ?_, ?_⟩
  · rw [h5]
    decide
  · rw [h6]
    decide
  · exact h7 1 1 (by decide) (by decide) (by decide)

/-- Claim C7: with no answer supplied, the produced instance has no
target-token field, no target-id field, no label (and no target metadata),
its source ids are computed over the inner source tokens alone, and
assembly always returns an instance, never the absent result. -/
theorem claim7_inference_shape (st tt bt : Str → List Token) (rule q sc : Str)
    (hist : List HistoryTurn) (uid tid su : Option Str) (ev : Option Evidence) :
    ∃ inst, text_to_instance st tt bt rule q sc hist uid tid su none ev = some inst ∧
      inst.target_tokens = none ∧ inst.target_token_ids = none ∧ inst.label = none ∧
      inst.meta_target_tokens = none ∧
      inst.source_token_ids = tokens_to_ids (st (sourceString rule hist)) := by
  refine ⟨_, rfl, rfl, rfl, rfl, rfl, ?_⟩
  show tokens_to_ids (inferAlignerTokens (wrapTokens (st (sourceString rule hist)))) = _
  rw [inferAlignerTokens, pySlice1_wrapTokens]

/- Facts about the `_read` loop. -/

theorem text_to_instance_training_some (st tt bt : Str → List Token)
    (rule q sc : Str) (hist : List HistoryTurn) (uid tid su : Option Str)
    (a : Str) (ev : Option Evidence) :
    ∃ inst, text_to_instance st tt bt rule q sc hist uid tid su (some a) ev = some inst ∧
      inst.label = some (labelAction a) ∧ inst.target_token_ids.isSome = true ∧
      inst.target_tokens.isSome = true :=
  ⟨_, rfl, rfl, rfl, rfl⟩

theorem readFold_all_training (st tt bt : Str → List Token) :
    ∀ (ds : List Utterance) (ansV : Option Str) (evV : Option Evidence)
      (insts : List InstanceModel) (terr : Option ReadError),
      readFold st tt bt ds ansV evV = (insts, terr) →
      ∀ inst ∈ insts, inst.label.isSome = true ∧ inst.target_token_ids.isSome = true ∧
        inst.target_tokens.isSome = true := by
  intro ds
  induction ds with
  | nil =>
    intro ansV evV insts terr h inst hmem
    rw [readFold] at h
    injection h with h1 _
    subst h1
    cases hmem
  | cons u us ih =>
    intro ansV evV insts terr h inst hmem
    rw [readFold] at h
    cases h2 : (match u.answer with | some a => some a | none => ansV) with
    | none =>
      rw [h2] at h
      injection h with h1 _
      subst h1
      cases hmem
    | some a =>
      rw [h2] at h
      cases h3 : (match u.evidence with | some e => some e | none => evV) with
      | none =>
        rw [h3] at h
        injection h with h1 _
        subst h1
        cases hmem
      | some e =>
        rw [h3] at h
        dsimp only at h
        obtain ⟨built, hbuilt, hlab, htid, htt⟩ :=
          text_to_instance_training_some st tt bt u.snippet u.question u.scenario u.history
            (some u.utterance_id) (some u.tree_id) (some u.source_url) a (some e)
        rw [hbuilt] at h
        dsimp only at h
        injection h with h1 _
        subst h1
        rcases List.mem_cons.mp hmem with he | hm
        · subst he
          exact ⟨by rw [hlab]; rfl, htid, htt⟩
        · exact ih (some a) (some e) _ _ rfl inst hm

/-- Claim C9: the locals `answer`/`evidence` of `_read` are assigned only
when the key is present; a first record without an `answer` key aborts with
an unbound-local error before any instance is built; a later record without
those keys is processed with the values carried over from an earlier
record; consequently every instance `_read` ever yields is a training-mode
instance (label and target fields present). -/
theorem claim9_read_locals (st tt bt : Str → List Token) :
    (∀ (u : Utterance) (us : List Utterance), u.answer = none →
      pyRead st tt bt (u :: us) = ([], some ReadError.unboundLocalAnswer)) ∧
    (∀ (u : Utterance) (us : List Utterance) (a : Str) (e : Evidence),
      u.answer = none → u.evidence = none →
      ∃ inst, text_to_instance st tt bt u.snippet u.question u.scenario u.history
          (some u.utterance_id) (some u.tree_id) (some u.source_url) (some a) (some e) =
            some inst ∧
        ∃ rest terr, readFold st tt bt (u :: us) (some a) (some e) = (inst :: rest, terr)) ∧
    (∀ (ds : List Utterance) (insts : List InstanceModel) (terr : Option ReadError),
      pyRead st tt bt ds = (insts, terr) →
      ∀ inst ∈ insts, inst.label.isSome = true ∧ inst.target_token_ids.isSome = true ∧
        inst.target_tokens.isSome = true) := by
  refine ⟨?_, ?_, ?_⟩
  · intro u us h
    rw [pyRead, readFold, h]
  · intro u us a e ha he
    obtain ⟨built, hbuilt, _, _, _⟩ :=
      text_to_instance_training_some st tt bt u.snippet u.question u.scenario u.history
        (some u.utterance_id) (some u.tree_id) (some u.source_url) a (some e)
    refine ⟨built, hbuilt,
      (readFold st tt bt us (some a) (some e)).1,
      (readFold st tt bt us (some a) (some e)).2, ?_⟩
    rw [readFold, ha, he]
    dsimp only
    rw [hbuilt]
  · intro ds insts terr h
    exact readFold_all_training st tt bt ds none none insts terr h

/-- Witness for claim C9: a one-record dataset without an `answer` key
fails with the unbound-local error, and every instance produced from a
record with an `answer` key is a training-mode instance. -/
theorem claim9_witness :
    pyRead oneTok oneTok oneTok [demoUttNoAnswer] = ([], some ReadError.unboundLocalAnswer) ∧
    ((pyRead oneTok oneTok oneTok [demoUttAnswer]).1.all
      (fun i => i.label.isSome && i.target_token_ids.isSome && i.target_tokens.isSome)) = true := by
  constructor
  · exact (claim9_read_locals oneTok oneTok oneTok).1 demoUttNoAnswer [] (by decide)
  · rw [List.all_eq_true]
    intro i hi
    obtain ⟨h1, h2, h3⟩ := (claim9_read_locals oneTok oneTok oneTok).2.2 [demoUttAnswer]
      (pyRead oneTok oneTok oneTok [demoUttAnswer]).1
      (pyRead oneTok oneTok oneTok [demoUttAnswer]).2 rfl i hi
    simp [h1, h2, h3]

/- Structure of the bullet block captured by group 3: when split at
newlines it consists of bulleted-item segments `* <text>` and empty
segments (one for each blank line absorbed by `\n*` inside the block, and
one for the trailing newline when the block ends with one), the first
segment being a bulleted item. -/

theorem nl_not_mem_takeLine (l : Str) : '\n' ∉ takeLine l := by
  intro h
  have := List.mem_takeWhile_imp h
  simp at this

theorem nl_not_mem_bullet_line {x : Str} (hx : '\n' ∉ x) : '\n' ∉ '*' :: ' ' :: x := by
  intro hmem
  rcases List.mem_cons.mp hmem with he | h2
  · exact absurd he (by decide)
  · rcases List.mem_cons.mp h2 with he | h3
    · exact absurd he (by decide)
    · exact hx h3

theorem takeWhile_nl_replicate (l : Str) :
    l.takeWhile (fun c => c == '\n') =
      List.replicate (l.takeWhile (fun c => c == '\n')).length '\n' := by
  apply List.eq_replicate_of_mem
  intro c hc
  have := List.mem_takeWhile_imp hc
  simpa using this

theorem pySplit_replicate_nl (m : Nat) (v : Str) :
    pySplit '\n' (List.replicate m '\n' ++ v) = List.replicate m [] ++ pySplit '\n' v := by
  induction m with
  | zero => simp
  | succ m ih =>
    rw [List.replicate_succ, List.cons_append]
    have hstep := @pySplit_append_sep '\n' [] (by simp) (List.replicate m '\n' ++ v)
    simp only [List.nil_append] at hstep
    rw [hstep, ih, List.replicate_succ, List.cons_append]

theorem pySplit_sep_run {u : Str} (hu : '\n' ∉ u) {m : Nat} (hm : 1 ≤ m) (v : Str) :
    pySplit '\n' (u ++ (List.replicate m '\n' ++ v)) =
      u :: (List.replicate (m - 1) [] ++ pySplit '\n' v) := by
  obtain ⟨m2, rfl⟩ : ∃ m2, m = m2 + 1 := ⟨m - 1, by omega⟩
  rw [List.replicate_succ, List.cons_append, pySplit_append_sep hu, pySplit_replicate_nl]
  simp

/-- Inversion for the bullet-block matcher: splitting a successful match at
newlines yields only bulleted-item segments and empty segments, the first
segment being a bulleted item. -/
theorem bulletsFromAux_segments :
    ∀ (fuel : Nat) (l g3 : Str), bulletsFromAux fuel l = some g3 →
      (∃ x, x ≠ [] ∧ '\n' ∉ x ∧ (pySplit '\n' g3).head? = some ('*' :: ' ' :: x)) ∧
      (∀ seg ∈ pySplit '\n' g3, seg = [] ∨ ∃ y, y ≠ [] ∧ '\n' ∉ y ∧ seg = '*' :: ' ' :: y) := by
  intro fuel
  induction fuel with
  | zero =>
    intro l g3 h
    exact absurd h (by simp [bulletsFromAux])
  | succ fuel ih =>
    intro l g3 h
    by_cases hbul : ∃ rest, l = '*' :: ' ' :: rest
    · obtain ⟨rest, rfl⟩ := hbul
      rw [bulletsFromAux.eq_2] at h
      split at h
      · exact Option.noConfusion h
      · rename_i hlineNe0
        have hne : takeLine rest ≠ [] := fun he => hlineNe0 (by simp [he])
        have hnl := nl_not_mem_takeLine rest
        have hu : '\n' ∉ '*' :: ' ' :: takeLine rest := nl_not_mem_bullet_line hnl
        dsimp only at h
        split at h
        · have hg3 : g3 = '*' :: ' ' :: takeLine rest := by
            injection h with h2
            exact h2.symm
          subst hg3
          rw [pySplit_no_sep hu]
          refine ⟨⟨takeLine rest, hne, hnl, rfl⟩, ?_⟩
          intro seg hseg
          simp only [List.mem_singleton] at hseg
          right
          exact ⟨takeLine rest, hne, hnl, hseg⟩
        · rename_i hnlsNe
          have hnlsne2 : (rest.drop (takeLine rest).length).takeWhile (fun c => c == '\n') ≠ [] :=
            fun he => hnlsNe (by simp [he])
          have hm1 : 1 ≤ ((rest.drop (takeLine rest).length).takeWhile
              (fun c => c == '\n')).length := List.length_pos.mpr hnlsne2
          have hrep := takeWhile_nl_replicate (rest.drop (takeLine rest).length)
          split at h
          · rename_i more hrec
            have hg3 : g3 = '*' :: ' ' :: (takeLine rest ++
                (rest.drop (takeLine rest).length).takeWhile (fun c => c == '\n') ++ more) := by
              injection h with h2
              exact h2.symm
            subst hg3
            have hshape : '*' :: ' ' :: (takeLine rest ++
                (rest.drop (takeLine rest).length).takeWhile (fun c => c == '\n') ++ more) =
                ('*' :: ' ' :: takeLine rest) ++
                  (List.replicate ((rest.drop (takeLine rest).length).takeWhile
                    (fun c => c == '\n')).length '\n' ++ more) := by
              conv_lhs => rw [hrep]
              simp
            rw [hshape, pySplit_sep_run hu hm1]
            obtain ⟨_, hsegs0⟩ := ih _ more hrec
            refine ⟨⟨takeLine rest, hne, hnl, rfl⟩, ?_⟩
            intro seg hseg
            rcases List.mem_cons.mp hseg with he | hseg2
            · right
              exact ⟨takeLine rest, hne, hnl, he⟩
            · rcases List.mem_append.mp hseg2 with hr | hmore
              · left
                exact List.eq_of_mem_replicate hr
              · exact hsegs0 seg hmore
          · have hg3 : g3 = '*' :: ' ' :: (takeLine rest ++
                (rest.drop (takeLine rest).length).takeWhile (fun c => c == '\n')) := by
              injection h with h2
              exact h2.symm
            subst hg3
            have hshape : '*' :: ' ' :: (takeLine rest ++
                (rest.drop (takeLine rest).length).takeWhile (fun c => c == '\n')) =
                ('*' :: ' ' :: takeLine rest) ++
                  (List.replicate ((rest.drop (takeLine rest).length).takeWhile
                    (fun c => c == '\n')).length '\n' ++ []) := by
              conv_lhs => rw [hrep]
              simp
            rw [hshape, pySplit_sep_run hu hm1]
            refine ⟨⟨takeLine rest, hne, hnl, rfl⟩, ?_⟩
            intro seg hseg
            rcases List.mem_cons.mp hseg with he | hseg2
            · right
              exact ⟨takeLine rest, hne, hnl, he⟩
            · rcases List.mem_append.mp hseg2 with hr | htail
              · left
                exact List.eq_of_mem_replicate hr
              · left
                have hsplitnil : pySplit '\n' ([] : Str) = [[]] := rfl
                rw [hsplitnil] at htail
                simpa using htail
    · rw [bulletsFromAux.eq_3 l fuel (fun rest hr => hbul ⟨rest, hr⟩)] at h
      exact Option.noConfusion h

/-- A successful `labelBulletsAt` match obtained its group 3 from
`bulletsFrom`. -/
theorem labelBulletsAt_bullets {l : Str} {g2 g3 : Str}
    (h : labelBulletsAt l = some (g2, g3)) : ∃ rest2, bulletsFrom rest2 = some g3 := by
  unfold labelBulletsAt at h
  split at h
  · split at h
    · split at h
      · rename_i g3x hbul
        injection h with h2
        injection h2 with _ hc
        exact ⟨_, hc ▸ hbul⟩
      · exact Option.noConfusion h
    · exact Option.noConfusion h
  · exact Option.noConfusion h

/-- A successful `searchLines` obtained its groups 2 and 3 from a
`labelBulletsAt` match. -/
theorem searchLines_bullets :
    ∀ (L : List Str) (prev g1 g2 g3 : Str), searchLines prev L = some (g1, g2, g3) →
      ∃ l, labelBulletsAt l = some (g2, g3) := by
  intro L
  induction L with
  | nil =>
    intro prev g1 g2 g3 h
    cases h
  | cons ln rest ih =>
    intro prev g1 g2 g3 h
    rw [searchLines] at h
    by_cases hln : ln.isEmpty
    · rw [if_pos hln] at h
      exact ih prev g1 g2 g3 h
    · rw [if_neg hln] at h
      cases hlb : labelBulletsAt (joinLines (ln :: rest)) with
      | some p =>
        rw [hlb] at h
        obtain ⟨g2x, g3x⟩ := p
        injection h with h2
        injection h2 with _ hbc
        injection hbc with hb hc
        exact ⟨joinLines (ln :: rest), by rw [hlb, hb, hc]⟩
      | none =>
        rw [hlb] at h
        exact ih ln g1 g2 g3 h

/-- Claim C6 (amended): when the pattern matches and no exclusion marker
fires, the output is the extended pretext followed by one emitted line per
segment of `bullets.split('\n')`, in original order.  Every segment is
either a bulleted item `* x` — contributing the rewritten line
`<condition clause> x.` — or empty — contributing the degenerate line
`<condition clause> .` (one such segment for each blank line the pattern
absorbed inside the block, and one for the trailing newline when the block
ends with one) — and the first segment is always a bulleted item, so the
output has exactly one rewritten line per bulleted item plus one degenerate
line per empty segment, and nothing else. -/
theorem claim6_flattened_lines (rule g1 g2 g3 : Str)
    (hm : patternSearch rule = some (g1, g2, g3))
    (ha : exclude_words.any (fun w => containsSub (split_last_sentence g2).2 w) = false) :
    modify_rule rule =
      (g1 ++ '\n' :: (split_last_sentence g2).1) ++ '\n' ::
        ((pySplit '\n' g3).map
          (fun a => (split_last_sentence g2).2 ++ (' ' :: a.drop 2) ++ ['.', '\n'])).flatten ∧
    (∃ x, x ≠ [] ∧ '\n' ∉ x ∧ (pySplit '\n' g3).head? = some ('*' :: ' ' :: x)) ∧
    (∀ seg ∈ pySplit '\n' g3,
      (seg = [] ∧ (split_last_sentence g2).2 ++ (' ' :: seg.drop 2) ++ ['.', '\n'] =
        (split_last_sentence g2).2 ++ (' ' :: '.' :: '\n' :: [])) ∨
      (∃ x, x ≠ [] ∧ '\n' ∉ x ∧ seg = '*' :: ' ' :: x ∧
        (split_last_sentence g2).2 ++ (' ' :: seg.drop 2) ++ ['.', '\n'] =
        (split_last_sentence g2).2 ++ (' ' :: x) ++ ['.', '\n'])) := by
  obtain ⟨l, hl⟩ := searchLines_bullets (pySplit '\n' rule) [] g1 g2 g3 hm
  obtain ⟨rest2, hrest2⟩ := labelBulletsAt_bullets hl
  obtain ⟨hhead, hsegs⟩ := bulletsFromAux_segments (rest2.length + 1) rest2 g3 hrest2
  refine ⟨modify_rule_flatten hm ha, hhead, ?_⟩
  intro seg hseg
  rcases hsegs seg hseg with hnil | ⟨x, hx1, hx2, hx3⟩
  · left
    refine ⟨hnil, ?_⟩
    rw [hnil]
    simp
  · right
    refine ⟨x, hx1, hx2, hx3, ?_⟩
    rw [hx3]
    simp

/-- Witness for claim C6 at the spec's exemplar input. -/
theorem claim6_witness :
    modify_rule (str "Intro.\nCondition:\n\n* item one\n* item two\n") =
      (str "Intro." ++ '\n' :: (split_last_sentence (str "Condition")).1) ++ '\n' ::
        ((pySplit '\n' (str "* item one\n* item two\n")).map
          (fun a => (split_last_sentence (str "Condition")).2 ++
            (' ' :: a.drop 2) ++ ['.', '\n'])).flatten :=
  (claim6_flattened_lines _ (str "Intro.") (str "Condition")
    (str "* item one\n* item two\n") (by decide) (by decide)).1
